import Mathlib

/-!
Verification of the typedcsv specification against a shallow embedding of the
package's source (typed_csv_reader.go, typed_csv_writer.go, common.go,
errors.go).

The embedding models the fragment of Go's type universe that the verified
claims exercise: `string`, `int`, `bool`, pointer ("optional") wrappers and
slices thereof.  Struct tags are modelled by `GoTag` with the `csv`, `null`
and `separator` tags; the `format`, `time_format` and `time_location` tags,
`time.Time` fields and `TextMarshaler`/`TextUnmarshaler` capability types
lie outside the modelled fragment (the corresponding branches of
`WriteRecord`/`ReadRecord` never fire on fragment types, and the claims
either exclude them explicitly or do not mention them), so the writer's
time/marshaler/format branches and the reader's time/unmarshaler branches
are elided.  The external `encoding/csv` tokenizer is modelled as a list of
pre-tokenized rows with `FieldsPerRecord` consistency checking, which is the
contract `TypedCSVReader` consumes.

`fmt.Sscanf(value, "%v", ptr)` is modelled by `goScan` (fmt's scanner space
table for whitespace, canonical decimal integers, Go's boolean token
grammar); `fmt.Sprintf("%v", v)` by `fmtV`; `strings.Split` by `goSplit`;
Go map insertion (last write wins) by `mapInsert`/`mapFind`.
-/

set_option maxHeartbeats 1000000

namespace TypedCSV

/-- Go field types in the modelled fragment. -/
inductive GoTy : Type where
  | str : GoTy
  | int : GoTy
  | bool : GoTy
  | opt : GoTy → GoTy
  | slice : GoTy → GoTy
deriving DecidableEq

/-- Scalar Go values, the only values that occur inside pointer and slice
fields in the modelled fragment (the reader can only ever construct scalars
there: `Sscanf` rejects pointer and slice targets).  Go's `int` is modelled
as unbounded `Int`; a value denotes a program state only within the int64
range, and the scanner's range-overflow error is outside the fragment. -/
inductive GoBase : Type where
  | bstr : String → GoBase
  | bint : Int → GoBase
  | bbool : Bool → GoBase
deriving DecidableEq

/-- Go values in the modelled fragment.  Pointer and slice values carry the
element type so that zero values and freshly decoded values compare like
`reflect.DeepEqual` on a fixed struct type. -/
inductive GoVal : Type where
  | vstr : String → GoVal
  | vint : Int → GoVal
  | vbool : Bool → GoVal
  | vopt : GoTy → Option GoBase → GoVal
  | vslice : GoTy → List GoBase → GoVal
deriving DecidableEq

/-- Scalar values as record field values. -/
def GoBase.toVal : GoBase → GoVal
  | .bstr s => .vstr s
  | .bint n => .vint n
  | .bbool b => .vbool b

/-- Causes carried by `FieldParseError.NestedError` in the modelled fragment:
`io.EOF` from `fmt.Sscanf`, a scan syntax error, or fmt's
"can't scan type" error for unsupported targets. -/
inductive ParseCause : Type where
  | eof : ParseCause
  | badSyntax : ParseCause
  | unsupported : GoTy → ParseCause
deriving DecidableEq

/-- Errors surfaced by the reader: `io.EOF`, `csv.ErrFieldCount`,
`ErrHeaderNotRead` (errors.go line 9) and `FieldParseError{Field, NestedError}`
(errors.go lines 12-17). -/
inductive GoError : Type where
  | eof : GoError
  | errFieldCount : GoError
  | headerNotRead : GoError
  | fieldParse : String → ParseCause → GoError
deriving DecidableEq

/-- Decidable equality of `Except` results, used to evaluate the model on
concrete inputs. -/
instance {ε α : Type} [DecidableEq ε] [DecidableEq α] : DecidableEq (Except ε α) := fun x y =>
  match x, y with
  | .ok a, .ok b => if h : a = b then isTrue (by rw [h]) else isFalse (by simp [h])
  | .error a, .error b => if h : a = b then isTrue (by rw [h]) else isFalse (by simp [h])
  | .ok _, .error _ => isFalse (by simp)
  | .error _, .ok _ => isFalse (by simp)

/-- Struct tags of one field (common.go lines 238-245): the `csv` tag read
with `Get` (mandatory, non-empty for eligible fields), the `null` tag read
with `Lookup` on decode and `Get` on encode, and the `separator` tag read
with `Get` (absent tag = empty string).  `format`/`time_format`/
`time_location` are outside the modelled fragment. -/
structure GoTag : Type where
  csv : String
  null : Option String
  separator : String
deriving DecidableEq

/-- A schema is the ordered list of eligible field descriptors of a record
type, as produced by iterating the struct fields and keeping those with
`isValidCSVField` (common.go line 253). -/
abbrev Schema := List (GoTag × GoTy)

/-- Zero value of a Go type (`reflect.Zero`): empty string, 0, false, nil
pointer, nil slice (nil and empty slices are identified in this model). -/
def GoTy.zero : GoTy → GoVal
  | .str => .vstr ""
  | .int => .vint 0
  | .bool => .vbool false
  | .opt τ => .vopt τ none
  | .slice τ => .vslice τ []

/-- Whitespace as consumed by fmt's scanner: the space table of
fmt/scan.go, i.e. U+0009-U+000D, U+0020, U+0085, U+00A0, U+1680,
U+2000-U+200A, U+2028-U+2029, U+202F, U+205F and U+3000 (code points above
U+FFFF are never space there).  Sscanf's rule that a newline in the input
must match a newline in the format is outside the modelled fragment: no
verified claim feeds a cell whose leading characters are newlines. -/
def isGoSpace (c : Char) : Bool :=
  (9 ≤ c.toNat && c.toNat ≤ 13) || c.toNat = 32 || c.toNat = 133 ||
  c.toNat = 160 || c.toNat = 5760 || (8192 ≤ c.toNat && c.toNat ≤ 8202) ||
  c.toNat = 8232 || c.toNat = 8233 || c.toNat = 8239 || c.toNat = 8287 ||
  c.toNat = 12288

/-- Leading-whitespace skipping (`ss.SkipSpace`). -/
def dropSpaces (cs : List Char) : List Char :=
  cs.dropWhile isGoSpace

/-- Numeric value of a decimal digit character. -/
def digitVal (c : Char) : Nat := c.toNat - 48

/-- Value of a decimal digit string, most significant digit first. -/
def digitsVal (cs : List Char) : Nat :=
  cs.foldl (fun a c => 10 * a + digitVal c) 0

/-- Scanner for `%v` into an integer target: skip spaces, `io.EOF` on empty
input, optional sign, then a non-empty run of decimal digits (input after
the digit run is left unconsumed, as `Sscanf` does).  Go's base-prefix
handling for `%v` (a leading `0` selects octal, `0x` hex) and the int64
range check are outside the modelled fragment: every cell the writer
produces is a canonical decimal with no leading zero, on which the two
scanners agree, and the verified claims feed only such cells or the
claims' own exemplars. -/
def scanIntChars (cs : List Char) : Except ParseCause Int :=
  match dropSpaces cs with
  | [] => .error .eof
  | c :: rest =>
    let signed : Bool × List Char :=
      if c = '-' then (true, rest)
      else if c = '+' then (false, rest)
      else (false, c :: rest)
    let digits := signed.2.takeWhile Char.isDigit
    if digits.isEmpty then .error .badSyntax
    else .ok (if signed.1 then -(digitsVal digits : Int) else (digitsVal digits : Int))

/-- Scanner for `%v` into a boolean target, following fmt's `scanBool`:
skip spaces, `io.EOF` on empty input, then `0`, `1`, or a `t`/`f` prefix
where a following `r`/`a` commits to the full word `true`/`false`
(case-insensitively); trailing input is left unconsumed. -/
def scanBoolChars (cs : List Char) : Except ParseCause Bool :=
  match dropSpaces cs with
  | [] => .error .eof
  | '0' :: _ => .ok false
  | '1' :: _ => .ok true
  | c :: rest =>
    if c = 't' || c = 'T' then
      match rest with
      | [] => .ok true
      | r :: rest2 =>
        if r = 'r' || r = 'R' then
          match rest2 with
          | u :: e :: _ =>
            if (u = 'u' || u = 'U') && (e = 'e' || e = 'E') then .ok true
            else .error .badSyntax
          | _ => .error .badSyntax
        else .ok true
    else if c = 'f' || c = 'F' then
      match rest with
      | [] => .ok false
      | a :: rest2 =>
        if a = 'a' || a = 'A' then
          match rest2 with
          | l :: s :: e :: _ =>
            if (l = 'l' || l = 'L') && (s = 's' || s = 'S') && (e = 'e' || e = 'E') then .ok false
            else .error .badSyntax
          | _ => .error .badSyntax
        else .ok false
    else .error .badSyntax

/-- Model of `fmt.Sscanf(value, "%v", fieldAddr)` at each fragment type
(typed_csv_reader.go lines 159 and 169).  A string target reads one
whitespace-delimited token; pointer and slice targets are the reflection
kinds fmt cannot scan ("can't scan type"). -/
def goScan (τ : GoTy) (value : String) : Except ParseCause GoBase :=
  match τ with
  | .str =>
    match dropSpaces value.data with
    | [] => .error .eof
    | cs => .ok (.bstr (String.mk (cs.takeWhile (fun c => !isGoSpace c))))
  | .int => (scanIntChars value.data).map .bint
  | .bool => (scanBoolChars value.data).map .bbool
  | .opt τi => .error (.unsupported (.opt τi))
  | .slice τe => .error (.unsupported (.slice τe))

/-- Decimal digit character for a value below 10. -/
def digitChar (n : Nat) : Char := Char.ofNat (48 + n)

/-- Fuelled most-significant-first decimal digits of a natural number; fuel
at least `n` suffices. -/
def natDigitsAux : Nat → Nat → List Char
  | 0, _ => []
  | fuel + 1, n =>
    if n = 0 then []
    else natDigitsAux fuel (n / 10) ++ [digitChar (n % 10)]

/-- Decimal rendering of a natural number. -/
def natToDecimal (n : Nat) : List Char :=
  if n = 0 then ['0'] else natDigitsAux n n

/-- Decimal rendering of an integer, as `fmt.Sprintf("%v", n)` prints it. -/
def intToDecimal (n : Int) : List Char :=
  if n < 0 then '-' :: natToDecimal n.natAbs else natToDecimal n.toNat

/-- Model of `fmt.Sprintf("%v", b)` on scalar values. -/
def fmtB : GoBase → String
  | .bstr s => s
  | .bint n => String.mk (intToDecimal n)
  | .bbool b => if b then "true" else "false"

/-- Model of `fmt.Sprintf("%v", v)` on fragment values.  The writer only
reaches this on scalars (pointers are unwrapped first and slices are joined
element-wise); the pointer and slice cases, which Go would print as an
address respectively as bracketed elements, are outside the fragment and
rendered as opaque placeholders. -/
def fmtV : GoVal → String
  | .vstr s => s
  | .vint n => String.mk (intToDecimal n)
  | .vbool b => if b then "true" else "false"
  | .vopt _ _ => "<ptr>"
  | .vslice _ _ => "<slice>"

/-- The writer's slice join (typed_csv_writer.go lines 111-117): separator
between consecutive elements only. -/
def joinSep (sep : String) : List String → String
  | [] => ""
  | [x] => x
  | x :: xs => x ++ sep ++ joinSep sep xs

/-- Fuelled splitter on a non-empty separator `c0 :: sep1`, following
`strings.Split`: a separator occurrence ends the current piece.  Fuel at
least the length of the input suffices. -/
def splitChars (c0 : Char) (sep1 : List Char) : Nat → List Char → List Char → List (List Char)
  | _, [], acc => [acc.reverse]
  | 0, cs, acc => [acc.reverse ++ cs]
  | fuel + 1, c :: cs, acc =>
    if c = c0 && sep1.isPrefixOf cs then
      acc.reverse :: splitChars c0 sep1 fuel (cs.drop sep1.length) []
    else
      splitChars c0 sep1 fuel cs (c :: acc)

/-- Model of `strings.Split(value, sep)` (typed_csv_reader.go line 157):
an empty separator explodes the string into single-character pieces. -/
def goSplit (value sep : String) : List String :=
  match sep.data with
  | [] => value.data.map (fun c => String.mk [c])
  | c0 :: sep1 => (splitChars c0 sep1 value.data.length value.data []).map String.mk

/-- WriteRecord's per-field encoding (typed_csv_writer.go lines 60-127) on
the modelled fragment: nil pointers emit the `null` tag text read with
`Get` (empty when absent); non-nil pointers are unwrapped and, because
`fieldKind` keeps the original `Ptr` kind, fall through to the default
`%v` branch; slices are joined with the `separator` tag using the default
`%v` element format (no `format` tag in the fragment); everything else is
`%v`.  The time, TextMarshaler and format branches never fire on fragment
fields, so no `FieldFormatError` arises and the result is the cell text. -/
def writeField (tag : GoTag) (v : GoVal) : String :=
  match v with
  | .vopt _ none => tag.null.getD ""
  | .vopt _ (some inner) => fmtB inner
  | .vslice _ xs => joinSep tag.separator (xs.map fmtB)
  | v => fmtV v

/-- WriteHeader's row (typed_csv_writer.go lines 37-49): the `csv` tag of
each eligible field, in declaration order, independent of any record. -/
def writeHeaderRow (schema : Schema) : List String :=
  schema.map (fun d => d.1.csv)

/-- WriteRecord's row: each eligible field encoded in declaration order. -/
def writeRecordRow (schema : Schema) (rec : List GoVal) : List String :=
  List.zipWith (fun d v => writeField d.1 v) schema rec

/-- Go map insertion `m[k] = v`: replaces the binding if present, otherwise
adds it. -/
def mapInsert : List (String × Nat) → String → Nat → List (String × Nat)
  | [], k, v => [(k, v)]
  | (k', v') :: rest, k, v =>
    if k' = k then (k, v) :: rest else (k', v') :: mapInsert rest k v

/-- Go map lookup `m[k]`. -/
def mapFind : List (String × Nat) → String → Option Nat
  | [], _ => none
  | (k', v') :: rest, k => if k' = k then some v' else mapFind rest k

/-- The header-building loop of ReadHeader (typed_csv_reader.go lines 66-69)
starting at index `i`. -/
def buildHeaderFrom : List String → Nat → List (String × Nat) → List (String × Nat)
  | [], _, m => m
  | f :: rest, i, m => buildHeaderFrom rest (i + 1) (mapInsert m f i)

/-- `ReadHeader`'s name-to-position map. -/
def buildHeader (row : List String) : List (String × Nat) :=
  buildHeaderFrom row 0 []

/-- Scalar zero values (`reflect.Zero` at a scalar type); the non-scalar
cases are unreachable junk: `goScan` never yields `io.EOF` at a pointer or
slice type, which is the only place this is consulted for them. -/
def GoTy.zeroBase : GoTy → GoBase
  | .str => .bstr ""
  | .int => .bint 0
  | .bool => .bbool false
  | .opt _ => .bstr ""
  | .slice _ => .bstr ""

/-- The scalar default branch of ReadRecord (typed_csv_reader.go lines
169-176): scan `%v`; `io.EOF` resets the field to its zero value and is not
an error; any other failure becomes a `FieldParseError` on the column. -/
def decodeScalarB (value : String) (name : String) (τ : GoTy) : Except GoError GoBase :=
  match goScan τ value with
  | .ok v => .ok v
  | .error .eof => .ok (GoTy.zeroBase τ)
  | .error c => .error (.fieldParse name c)

/-- The slice branch's element loop (typed_csv_reader.go lines 157-164):
each piece is scanned with `%v`; the first failure (including `io.EOF` on an
empty piece — the zero-value fallback of the default branch does not apply
here) aborts with a `FieldParseError` on `"<column>[<index>]"`. -/
def decodePieces (name : String) (τe : GoTy) : List String → Nat → Except GoError (List GoBase)
  | [], _ => .ok []
  | p :: ps, i =>
    match goScan τe p with
    | .error c => .error (.fieldParse (name ++ "[" ++ toString i ++ "]") c)
    | .ok v => (decodePieces name τe ps (i + 1)).map (v :: ·)

/-- ReadRecord's per-field decoding of a cell's text (typed_csv_reader.go
lines 104-176): a pointer field whose cell equals a present `null` tag is
set to nil; otherwise the inner value is allocated and decoded — and since
`fieldKind` keeps the original `Ptr` kind, the slice branch is skipped for
it and the default `Sscanf` applies to the inner target (which fmt rejects
when the inner type is itself a pointer or slice).  A slice field splits the
cell on the `separator` tag and scans each piece; everything else is the
default scalar branch. -/
def decodeValue (value : String) (tag : GoTag) (τ : GoTy) : Except GoError GoVal :=
  match τ with
  | .opt τi =>
    match tag.null with
    | some nt =>
      if value = nt then .ok (.vopt τi none)
      else (decodeScalarB value tag.csv τi).map (fun v => .vopt τi (some v))
    | none => (decodeScalarB value tag.csv τi).map (fun v => .vopt τi (some v))
  | .slice τe =>
    (decodePieces tag.csv τe (goSplit value tag.separator) 0).map (.vslice τe)
  | τ => (decodeScalarB value tag.csv τ).map GoBase.toVal

/-- One iteration of ReadRecord's field loop: a column name absent from the
header index leaves the field at its zero value and is skipped without
error (typed_csv_reader.go lines 100-103). -/
def decodeField (hIdx : List (String × Nat)) (row : List String) (tag : GoTag) (τ : GoTy) :
    Except GoError GoVal :=
  match mapFind hIdx tag.csv with
  | none => .ok (GoTy.zero τ)
  | some idx => decodeValue (row.getD idx "") tag τ

/-- ReadRecord's field loop over the whole schema: the first field error
aborts the record. -/
def decodeRecord (hIdx : List (String × Nat)) (row : List String) :
    Schema → Except GoError (List GoVal)
  | [] => .ok []
  | (tag, τ) :: rest =>
    match decodeField hIdx row tag τ with
    | .error e => .error e
    | .ok v => (decodeRecord hIdx row rest).map (v :: ·)

/-- The `encoding/csv` reader collaborator, modelled as pre-tokenized rows
plus the `FieldsPerRecord` consistency state that makes `Read` return
`ErrFieldCount` on a row whose length differs from the first row's. -/
structure CSVReader : Type where
  rows : List (List String)
  fieldsPerRecord : Option Nat
deriving DecidableEq

/-- `csv.Reader.Read`: `io.EOF` on exhausted input, otherwise the next row,
checked against (or establishing) the expected field count. -/
def CSVReader.read : CSVReader → Except GoError (List String) × CSVReader
  | ⟨[], fpr⟩ => (.error .eof, ⟨[], fpr⟩)
  | ⟨row :: rest, none⟩ => (.ok row, ⟨rest, some row.length⟩)
  | ⟨row :: rest, some n⟩ =>
    if row.length = n then (.ok row, ⟨rest, some n⟩)
    else (.error .errFieldCount, ⟨rest, some n⟩)

/-- `TypedCSVReader` state: the underlying tokenizer and the `Header` map,
nil until `ReadHeader` succeeds. -/
structure TypedCSVReader : Type where
  reader : CSVReader
  header : Option (List (String × Nat))
deriving DecidableEq

/-- `ReadHeader` (typed_csv_reader.go lines 61-71): read one row, propagate
its error unwrapped, otherwise build the name-to-position map. -/
def TypedCSVReader.readHeader (r : TypedCSVReader) : Except GoError Unit × TypedCSVReader :=
  match r.reader.read with
  | (.error e, rd) => (.error e, { r with reader := rd })
  | (.ok row, rd) => (.ok (), { reader := rd, header := some (buildHeader row) })

/-- `ReadRecord` (typed_csv_reader.go lines 78-180): `ErrHeaderNotRead`
before any tokenizer read if the header map is nil; otherwise read one row,
propagate its error, and decode every schema field from it. -/
def TypedCSVReader.readRecord (schema : Schema) (r : TypedCSVReader) :
    Except GoError (List GoVal) × TypedCSVReader :=
  match r.header with
  | none => (.error .headerNotRead, r)
  | some hIdx =>
    match r.reader.read with
    | (.error e, rd) => (.error e, { r with reader := rd })
    | (.ok row, rd) => (decodeRecord hIdx row schema, { r with reader := rd })

/-- `ReadAll` (typed_csv_reader.go lines 186-199): repeat `ReadRecord`,
collecting successes; clean `io.EOF` ends the loop with a nil error; any
other error is returned together with the records collected so far. -/
def TypedCSVReader.readAll (schema : Schema) (r : TypedCSVReader) :
    List (List GoVal) × Option GoError :=
  match h : r.readRecord schema with
  | (.error .eof, _) => ([], none)
  | (.error e, _) => ([], some e)
  | (.ok rec, r2) =>
    let p := r2.readAll schema
    (rec :: p.1, p.2)
termination_by r.reader.rows.length
decreasing_by
  rcases r with ⟨⟨rows, fpr⟩, hd⟩
  rcases hd with _ | hIdx
  · simp [TypedCSVReader.readRecord] at h
  · rcases rows with _ | ⟨row, rest⟩
    · simp [TypedCSVReader.readRecord, CSVReader.read] at h
    · rcases fpr with _ | n
      · rcases hok : decodeRecord hIdx row schema with e | rec'
        · simp [TypedCSVReader.readRecord, CSVReader.read, hok] at h
        · simp only [TypedCSVReader.readRecord, CSVReader.read, hok, Prod.mk.injEq] at h
          rw [← h.2]
          simp
      · by_cases hn : row.length = n
        · rcases hok : decodeRecord hIdx row schema with e | rec'
          · simp [TypedCSVReader.readRecord, CSVReader.read, hn, hok] at h
          · simp only [TypedCSVReader.readRecord, CSVReader.read, hn, if_true,
              Prod.mk.injEq] at h
            rw [← h.2]
            simp
        · simp [TypedCSVReader.readRecord, CSVReader.read, hn] at h

/-- Character-list version of the writer's slice join, used to relate
`joinSep` and `goSplit`. -/
def joinChars (sep : List Char) : List (List Char) → List Char
  | [] => []
  | [x] => x
  | x :: xs => x ++ sep ++ joinChars sep xs

/-- Index of the last occurrence of `name` in a list, the occurrence whose
insertion survives in a Go map built by iterating the list. -/
def lastIdxOf (name : String) : List String → Option Nat
  | [] => none
  | f :: rest =>
    match lastIdxOf name rest with
    | some k => some (k + 1)
    | none => if f = name then some 0 else none

/-- Whether a string is free of scanner whitespace, so that `%v` rescans it
as one whole token. -/
def noWSb (s : String) : Bool :=
  s.data.all (fun c => !isGoSpace c)

/-- Faithful-rescan condition for a scalar value at a scalar type: the value
is well-typed and its `%v` rendering rescans to itself (strings must be
whitespace-free; every integer and boolean qualifies). -/
def scalarOKb : GoTy → GoBase → Bool
  | .str, .bstr s => noWSb s
  | .int, .bint _ => true
  | .bool, .bbool _ => true
  | _, _ => false

/-- Round-trippability of one field value under its descriptor: the
conditions under which WriteRecord's cell text decodes back to the same
value.  Strings must be whitespace-free; an absent optional needs a declared
`null` tag and a present optional must be a scalar whose rendering differs
from the null token; a slice needs a non-empty separator, a non-empty
element list, and scalar elements whose renderings are non-empty and avoid
the separator's first character. -/
def rtOK (tag : GoTag) : GoTy → GoVal → Bool
  | .str, .vstr s => noWSb s
  | .int, .vint _ => true
  | .bool, .vbool _ => true
  | .opt τi, .vopt τj ov =>
    decide (τj = τi) &&
      (match ov with
       | none => tag.null.isSome
       | some inner =>
         scalarOKb τi inner &&
           (match tag.null with
            | some nt => decide (fmtB inner ≠ nt)
            | none => true))
  | .slice τe, .vslice τj xs =>
    decide (τj = τe) && !xs.isEmpty &&
      (match tag.separator.data with
       | [] => false
       | c0 :: _ =>
         xs.all (fun x => scalarOKb τe x && !(fmtB x).isEmpty && decide (c0 ∉ (fmtB x).data)))
  | _, _ => false

/-- Round-trippability of a whole record against its schema (fields paired
positionally, as the struct layout pairs them). -/
def rtRecord : Schema → List GoVal → Bool
  | [], [] => true
  | d :: s, v :: vs => rtOK d.1 d.2 v && rtRecord s vs
  | _, _ => false

/-- Relational presentation of iterating `ReadRecord` from a reader state:
the sequence of successfully decoded records followed by the terminating
outcome — clean `io.EOF` (`none`) or a first non-EOF error. -/
inductive ReadsTo (schema : Schema) : TypedCSVReader → List (List GoVal) → Option GoError → Prop where
  | stop : ∀ r r2, r.readRecord schema = (.error .eof, r2) → ReadsTo schema r [] none
  | fail : ∀ r r2 e, r.readRecord schema = (.error e, r2) → e ≠ .eof →
      ReadsTo schema r [] (some e)
  | step : ∀ r r2 rec recs out, r.readRecord schema = (.ok rec, r2) →
      ReadsTo schema r2 recs out → ReadsTo schema r (rec :: recs) out

/-! ### Unfolding lemmas for `readAll` -/

theorem readAll_stop (schema : Schema) (r r2 : TypedCSVReader)
    (h : r.readRecord schema = (.error .eof, r2)) :
    r.readAll schema = ([], none) := by
  conv_lhs => unfold TypedCSVReader.readAll
  split <;> rename_i heq <;> rw [h] at heq <;> simp_all

theorem readAll_err (schema : Schema) (r r2 : TypedCSVReader) (e : GoError)
    (h : r.readRecord schema = (.error e, r2)) (hne : e ≠ .eof) :
    r.readAll schema = ([], some e) := by
  conv_lhs => unfold TypedCSVReader.readAll
  split <;> rename_i heq <;> rw [h] at heq <;> simp_all

theorem readAll_step (schema : Schema) (r r2 : TypedCSVReader) (rec : List GoVal)
    (h : r.readRecord schema = (.ok rec, r2)) :
    r.readAll schema = (rec :: (r2.readAll schema).1, (r2.readAll schema).2) := by
  conv_lhs => unfold TypedCSVReader.readAll
  split <;> rename_i heq <;> rw [h] at heq <;> simp_all

/-! ### Header map lemmas -/

theorem mapFind_mapInsert (m : List (String × Nat)) (k k' : String) (v : Nat) :
    mapFind (mapInsert m k v) k' = if k = k' then some v else mapFind m k' := by
  induction m with
  | nil => by_cases h : k = k' <;> simp [mapInsert, mapFind, h]
  | cons p rest ih =>
    obtain ⟨pk, pv⟩ := p
    by_cases h1 : pk = k
    · subst h1
      by_cases h2 : pk = k' <;> simp [mapInsert, mapFind, h2]
    · by_cases h2 : pk = k'
      · subst h2
        have : ¬k = pk := fun hh => h1 hh.symm
        simp [mapInsert, mapFind, h1, this]
      · simp [mapInsert, mapFind, h1, h2, ih]

theorem mapFind_buildHeaderFrom (row : List String) (name : String) :
    ∀ (i : Nat) (m : List (String × Nat)),
      mapFind (buildHeaderFrom row i m) name =
        match lastIdxOf name row with
        | some k => some (i + k)
        | none => mapFind m name := by
  induction row with
  | nil => intro i m; simp [buildHeaderFrom, lastIdxOf]
  | cons f rest ih =>
    intro i m
    simp only [buildHeaderFrom]
    rw [ih]
    cases hk : lastIdxOf name rest with
    | some k =>
      simp only [lastIdxOf, hk]
      have : i + 1 + k = i + (k + 1) := by omega
      rw [this]
    | none =>
      rw [mapFind_mapInsert]
      by_cases hf : f = name <;> simp [lastIdxOf, hk, hf]

theorem lastIdxOf_of_not_mem (name : String) (l : List String) (h : name ∉ l) :
    lastIdxOf name l = none := by
  induction l with
  | nil => rfl
  | cons f rest ih =>
    simp only [List.mem_cons, not_or] at h
    have hne : ¬f = name := fun hh => h.1 hh.symm
    simp [lastIdxOf, ih h.2, hne]

theorem lastIdxOf_nodup (l : List String) (hnd : l.Nodup) :
    ∀ (i : Nat) (name : String), l.get? i = some name → lastIdxOf name l = some i := by
  induction l with
  | nil => intro i name h; simp at h
  | cons f rest ih =>
    intro i name h
    rcases List.nodup_cons.mp hnd with ⟨hf, hrest⟩
    cases i with
    | zero =>
      simp only [List.get?] at h
      injection h with h
      subst h
      rw [lastIdxOf, lastIdxOf_of_not_mem _ _ hf]
      simp
    | succ i =>
      simp only [List.get?] at h
      rw [lastIdxOf, ih hrest i name h]

theorem lastIdxOf_last_occurrence (name : String) :
    ∀ (l : List String) (j : Nat), l.get? j = some name →
      (∀ k, j < k → l.get? k ≠ some name) → lastIdxOf name l = some j := by
  intro l
  induction l with
  | nil => intro j h _; simp at h
  | cons f rest ih =>
    intro j hj hlast
    cases j with
    | zero =>
      simp only [List.get?] at hj
      injection hj with hj
      subst hj
      have hnm : f ∉ rest := by
        intro hmem
        rcases List.mem_iff_get?.mp hmem with ⟨k, hk⟩
        exact hlast (k + 1) (Nat.succ_pos k) hk
      rw [lastIdxOf, lastIdxOf_of_not_mem _ _ hnm]
      simp
    | succ j =>
      simp only [List.get?] at hj
      have hlast' : ∀ k, j < k → rest.get? k ≠ some name := by
        intro k hk
        exact hlast (k + 1) (Nat.succ_lt_succ hk)
      rw [lastIdxOf, ih j hj hlast']

theorem mapFind_buildHeader_nodup (names : List String) (hnd : names.Nodup) (i : Nat)
    (name : String) (hi : names.get? i = some name) :
    mapFind (buildHeader names) name = some i := by
  rw [buildHeader, mapFind_buildHeaderFrom, lastIdxOf_nodup names hnd i name hi]
  simp

/-- C4: ReadHeader builds the name-to-position map by inserting each cell at
its zero-based index, so on a header row with a repeated column name the
later occurrence's index silently wins and no error is raised for the
duplicate. -/
theorem c4_duplicate_header_last_wins (row : List String) (rest : List (List String))
    (name : String) (i j : Nat) (hij : i < j) (hi : row.get? i = some name)
    (hj : row.get? j = some name) (hlast : ∀ k, j < k → row.get? k ≠ some name) :
    ((⟨⟨row :: rest, none⟩, none⟩ : TypedCSVReader).readHeader).1 = .ok () ∧
    ((⟨⟨row :: rest, none⟩, none⟩ : TypedCSVReader).readHeader).2.header =
      some (buildHeader row) ∧
    mapFind (buildHeader row) name = some j := by
  refine ⟨rfl, rfl, ?_⟩
  rw [buildHeader, mapFind_buildHeaderFrom, lastIdxOf_last_occurrence name row j hj hlast]
  simp

theorem c4_witness :
    (0 : Nat) < 2 ∧ (["a", "b", "a"].get? 0 = some "a") ∧
    (["a", "b", "a"].get? 2 = some "a") ∧
    ((⟨⟨[["a", "b", "a"]], none⟩, none⟩ : TypedCSVReader).readHeader).1 = .ok () ∧
    ((⟨⟨[["a", "b", "a"]], none⟩, none⟩ : TypedCSVReader).readHeader).2.header =
      some (buildHeader ["a", "b", "a"]) ∧
    mapFind (buildHeader ["a", "b", "a"]) "a" = some 2 := by
  have hlast : ∀ k, 2 < k → (["a", "b", "a"] : List String).get? k ≠ some "a" := by
    intro k hk
    have hnone : (["a", "b", "a"] : List String).get? k = none :=
      List.get?_eq_none.mpr (by simp; omega)
    rw [hnone]
    simp
  have h := c4_duplicate_header_last_wins ["a", "b", "a"] [] "a" 0 2 (by decide)
    (by decide) (by decide) hlast
  exact ⟨by decide, by decide, by decide, h.1, h.2.1, h.2.2⟩

/-- C10: calling ReadRecord before ReadHeader returns ErrHeaderNotRead from
the header-presence check, before any tokenizer read, leaving the reader
state (input position and header) unchanged. -/
theorem c10_header_check_precedes_read (schema : Schema) (r : TypedCSVReader)
    (h : r.header = none) :
    r.readRecord schema = (.error .headerNotRead, r) := by
  rw [TypedCSVReader.readRecord, h]

theorem c10_witness :
    ((⟨⟨[["h"], ["v"]], none⟩, none⟩ : TypedCSVReader).header = none) ∧
    (⟨⟨[["h"], ["v"]], none⟩, none⟩ : TypedCSVReader).readRecord [(⟨"h", none, ""⟩, .str)] =
      (.error .headerNotRead, ⟨⟨[["h"], ["v"]], none⟩, none⟩) :=
  ⟨rfl, c10_header_check_precedes_read [(⟨"h", none, ""⟩, .str)] _ rfl⟩

/-- C9: for an optional (pointer) field with a declared null token, a cell
equal to the token decodes to the absent (nil) value, and encoding an absent
value emits exactly the declared null-token text. -/
theorem c9_null_token_roundtrip (hIdx : List (String × Nat)) (row : List String)
    (name nt sep : String) (idx : Nat) (τi : GoTy)
    (hfind : mapFind hIdx name = some idx) (hcell : row.getD idx "" = nt) :
    decodeField hIdx row ⟨name, some nt, sep⟩ (.opt τi) = .ok (.vopt τi none) ∧
    writeField ⟨name, some nt, sep⟩ (.vopt τi none) = nt := by
  constructor
  · simp only [decodeField, hfind]
    rw [hcell]
    simp [decodeValue]
  · rfl

theorem c9_witness :
    mapFind (buildHeader ["optional"]) "optional" = some 0 ∧
    (["NULL"].getD 0 "" = "NULL") ∧
    decodeField (buildHeader ["optional"]) ["NULL"] ⟨"optional", some "NULL", ""⟩ (.opt .str) =
      .ok (.vopt .str none) ∧
    writeField ⟨"optional", some "NULL", ""⟩ (.vopt .str none) = "NULL" := by
  have h := c9_null_token_roundtrip (buildHeader ["optional"]) ["NULL"] "optional" "NULL" ""
    0 .str (by decide) (by decide)
  exact ⟨by decide, by decide, h.1, h.2⟩

/-- C7: decoding the empty string into a numeric (non-optional, non-slice,
tag-free) field yields the type's zero value with no error, and decoding a
text the integer scanner rejects (such as "abc") yields a FieldParseError
whose Field equals the column name. -/
theorem c7_numeric_empty_and_bad (hIdx : List (String × Nat)) (row : List String)
    (name value : String) (idx : Nat)
    (hfind : mapFind hIdx name = some idx) (hcell : row.getD idx "" = value) :
    (value = "" → decodeField hIdx row ⟨name, none, ""⟩ .int = .ok (.vint 0)) ∧
    (scanIntChars value.data = .error .badSyntax →
      decodeField hIdx row ⟨name, none, ""⟩ .int = .error (.fieldParse name .badSyntax)) := by
  constructor
  · intro hv
    subst hv
    simp only [decodeField, hfind, hcell]
    rfl
  · intro hbad
    have hscan : goScan .int value = .error .badSyntax := by
      simp only [goScan, hbad]
      rfl
    simp only [decodeField, hfind, hcell, decodeValue, decodeScalarB, hscan]
    rfl

theorem c7_witness :
    mapFind (buildHeader ["n"]) "n" = some 0 ∧
    decodeField (buildHeader ["n"]) [""] ⟨"n", none, ""⟩ .int = .ok (.vint 0) ∧
    decodeField (buildHeader ["n"]) ["abc"] ⟨"n", none, ""⟩ .int =
      .error (.fieldParse "n" .badSyntax) := by
  refine ⟨by decide, ?_, ?_⟩
  · exact (c7_numeric_empty_and_bad (buildHeader ["n"]) [""] "n" "" 0 (by decide)
      (by decide)).1 rfl
  · exact (c7_numeric_empty_and_bad (buildHeader ["n"]) ["abc"] "n" "abc" 0 (by decide)
      (by decide)).2 (by decide)

/-- C6: a field whose column name is not present in the header index is left
at its zero value and skipped by ReadRecord: its decode yields the zero
value with no error, and in any schema the surrounding fields decode exactly
as they would without it, with the zero value spliced in. -/
theorem c6_absent_column_zero_skip (hIdx : List (String × Nat)) (row : List String)
    (tag : GoTag) (τ : GoTy) (h : mapFind hIdx tag.csv = none) (pre post : Schema) :
    decodeField hIdx row tag τ = .ok (GoTy.zero τ) ∧
    decodeRecord hIdx row (pre ++ (tag, τ) :: post) =
      (decodeRecord hIdx row pre).bind
        (fun a => (decodeRecord hIdx row post).map (fun b => a ++ GoTy.zero τ :: b)) := by
  have hfield : decodeField hIdx row tag τ = .ok (GoTy.zero τ) := by
    simp [decodeField, h]
  refine ⟨hfield, ?_⟩
  induction pre with
  | nil =>
    simp only [List.nil_append, decodeRecord, hfield]
    cases hpost : decodeRecord hIdx row post <;> simp [Except.map, Except.bind]
  | cons d pre ih =>
    obtain ⟨dt, dτ⟩ := d
    simp only [List.cons_append, decodeRecord]
    cases hd : decodeField hIdx row dt dτ with
    | error e => simp [Except.bind]
    | ok v =>
      dsimp only
      simp only [List.append_eq]
      rw [ih]
      cases hpre : decodeRecord hIdx row pre <;>
        cases hpost : decodeRecord hIdx row post <;>
          simp [Except.map, Except.bind]

theorem c6_witness :
    mapFind (buildHeader ["other"]) "missing" = none ∧
    decodeField (buildHeader ["other"]) ["x"] ⟨"missing", none, ""⟩ .int = .ok (.vint 0) ∧
    decodeRecord (buildHeader ["other"]) ["x"]
        ([(⟨"other", none, ""⟩, .str)] ++ (⟨"missing", none, ""⟩, .int) :: []) =
      (decodeRecord (buildHeader ["other"]) ["x"] [(⟨"other", none, ""⟩, .str)]).bind
        (fun a => (decodeRecord (buildHeader ["other"]) ["x"] []).map
          (fun b => a ++ GoTy.zero .int :: b)) := by
  have h := c6_absent_column_zero_skip (buildHeader ["other"]) ["x"] ⟨"missing", none, ""⟩
    .int (by decide) [(⟨"other", none, ""⟩, .str)] []
  exact ⟨by decide, h.1, h.2⟩

/-! ### No decode path produces `ErrHeaderNotRead` -/

theorem map_ne_hnr {α β : Type} (x : Except GoError α) (f : α → β)
    (hx : x ≠ .error .headerNotRead) : x.map f ≠ .error .headerNotRead := by
  cases x with
  | ok a => simp [Except.map]
  | error e => simp only [Except.map]; simpa using hx

theorem decodeScalarB_ne_hnr (value name : String) (τ : GoTy) :
    decodeScalarB value name τ ≠ .error .headerNotRead := by
  simp only [decodeScalarB]
  split <;> simp

theorem decodePieces_ne_hnr (name : String) (τe : GoTy) :
    ∀ (ps : List String) (i : Nat), decodePieces name τe ps i ≠ .error .headerNotRead := by
  intro ps
  induction ps with
  | nil => intro i; simp [decodePieces]
  | cons p ps ih =>
    intro i
    simp only [decodePieces]
    split
    · simp
    · exact map_ne_hnr _ _ (ih (i + 1))

theorem decodeValue_ne_hnr (value : String) (tag : GoTag) (τ : GoTy) :
    decodeValue value tag τ ≠ .error .headerNotRead := by
  cases τ with
  | opt τi =>
    simp only [decodeValue]
    cases hnl : tag.null with
    | none => exact map_ne_hnr _ _ (decodeScalarB_ne_hnr _ _ _)
    | some nt =>
      by_cases hv : value = nt
      · simp [hv]
      · simp only [if_neg hv]
        exact map_ne_hnr _ _ (decodeScalarB_ne_hnr _ _ _)
  | slice τe =>
    simp only [decodeValue]
    exact map_ne_hnr _ _ (decodePieces_ne_hnr _ _ _ _)
  | str => exact map_ne_hnr _ _ (decodeScalarB_ne_hnr _ _ _)
  | int => exact map_ne_hnr _ _ (decodeScalarB_ne_hnr _ _ _)
  | bool => exact map_ne_hnr _ _ (decodeScalarB_ne_hnr _ _ _)

theorem decodeField_ne_hnr (hIdx : List (String × Nat)) (row : List String)
    (tag : GoTag) (τ : GoTy) : decodeField hIdx row tag τ ≠ .error .headerNotRead := by
  simp only [decodeField]
  split
  · simp
  · exact decodeValue_ne_hnr _ _ _

theorem decodeRecord_ne_hnr (hIdx : List (String × Nat)) (row : List String) :
    ∀ (schema : Schema), decodeRecord hIdx row schema ≠ .error .headerNotRead := by
  intro schema
  induction schema with
  | nil => simp [decodeRecord]
  | cons d rest ih =>
    obtain ⟨tag, τ⟩ := d
    simp only [decodeRecord]
    split
    · rename_i e heq
      intro hcontra
      have he : e = .headerNotRead := by simpa using hcontra
      apply decodeField_ne_hnr hIdx row tag τ
      rw [heq, he]
    · exact map_ne_hnr _ _ ih

theorem read_error_shape (c : CSVReader) (e : GoError) (rd : CSVReader)
    (h : c.read = (.error e, rd)) : e = .eof ∨ e = .errFieldCount := by
  rcases c with ⟨rows, fpr⟩
  rcases rows with _ | ⟨row, rest⟩
  · simp [CSVReader.read] at h
    exact Or.inl h.1.symm
  · rcases fpr with _ | n
    · simp [CSVReader.read] at h
    · by_cases hn : row.length = n
      · simp [CSVReader.read, hn] at h
      · simp [CSVReader.read, hn] at h
        exact Or.inr h.1.symm

/-- C5: on a reader whose header has not been read, ReadRecord fails with
ErrHeaderNotRead and ReadAll propagates that error with no records; after a
successful ReadHeader the same reader never produces ErrHeaderNotRead from
ReadRecord (it proceeds to the tokenizer and the field decoders). -/
theorem c5_header_gate (schema : Schema) (r : TypedCSVReader) (h : r.header = none) :
    (r.readRecord schema).1 = .error .headerNotRead ∧
    r.readAll schema = ([], some .headerNotRead) ∧
    (∀ r2, r.readHeader = (.ok (), r2) → (r2.readRecord schema).1 ≠ .error .headerNotRead) := by
  have hrr : r.readRecord schema = (.error .headerNotRead, r) := by
    rw [TypedCSVReader.readRecord, h]
  refine ⟨by rw [hrr], readAll_err schema r r _ hrr (by simp), ?_⟩
  intro r2 hrh
  obtain ⟨m, hm⟩ : ∃ m, r2.header = some m := by
    simp only [TypedCSVReader.readHeader] at hrh
    split at hrh
    · simp at hrh
    · rename_i row rd heq
      simp only [Prod.mk.injEq] at hrh
      rw [← hrh.2]
      exact ⟨_, rfl⟩
  simp only [TypedCSVReader.readRecord, hm]
  split
  · rename_i e rd heq
    rcases read_error_shape r2.reader e rd heq with he | he <;> simp [he]
  · rename_i row rd heq
    exact decodeRecord_ne_hnr m row schema

theorem c5_witness :
    ((⟨⟨[["h"], ["1"]], none⟩, none⟩ : TypedCSVReader).readRecord
        [(⟨"h", none, ""⟩, .int)]).1 = .error .headerNotRead ∧
    (⟨⟨[["h"], ["1"]], none⟩, none⟩ : TypedCSVReader).readAll [(⟨"h", none, ""⟩, .int)] =
      ([], some .headerNotRead) ∧
    (((⟨⟨[["h"], ["1"]], none⟩, none⟩ : TypedCSVReader).readHeader).2.readRecord
        [(⟨"h", none, ""⟩, .int)]).1 ≠ .error .headerNotRead := by
  have h := c5_header_gate [(⟨"h", none, ""⟩, .int)] ⟨⟨[["h"], ["1"]], none⟩, none⟩ rfl
  refine ⟨h.1, h.2.1, h.2.2 _ ?_⟩
  decide

/-- C8: WriteHeader emits exactly the eligible fields' column names in
declaration order as one row, consulting no record instance; ReadHeader on
that exact row produces a header index mapping each column name (distinct
within a schema, per the data-model invariant) to its declaration-order
position. -/
theorem c8_write_read_header (schema : Schema) (hnd : (writeHeaderRow schema).Nodup)
    (i : Nat) (hi : i < schema.length) :
    writeHeaderRow schema = schema.map (fun d => d.1.csv) ∧
    ((⟨⟨[writeHeaderRow schema], none⟩, none⟩ : TypedCSVReader).readHeader) =
      (.ok (), ⟨⟨[], some schema.length⟩, some (buildHeader (writeHeaderRow schema))⟩) ∧
    mapFind (buildHeader (writeHeaderRow schema)) ((schema.get ⟨i, hi⟩).1.csv) = some i := by
  refine ⟨rfl, ?_, ?_⟩
  · simp [TypedCSVReader.readHeader, CSVReader.read, writeHeaderRow]
  · apply mapFind_buildHeader_nodup _ hnd
    rw [writeHeaderRow, List.get?_map, List.get?_eq_get hi]
    rfl

theorem c8_witness :
    (writeHeaderRow [(⟨"a", none, ""⟩, .str), (⟨"b", none, ""⟩, .int)]).Nodup ∧
    writeHeaderRow [(⟨"a", none, ""⟩, .str), (⟨"b", none, ""⟩, .int)] = ["a", "b"] ∧
    ((⟨⟨[writeHeaderRow [(⟨"a", none, ""⟩, .str), (⟨"b", none, ""⟩, .int)]], none⟩, none⟩ :
        TypedCSVReader).readHeader) =
      (.ok (), ⟨⟨[], some 2⟩,
        some (buildHeader (writeHeaderRow [(⟨"a", none, ""⟩, .str), (⟨"b", none, ""⟩, .int)]))⟩) ∧
    mapFind (buildHeader (writeHeaderRow [(⟨"a", none, ""⟩, .str), (⟨"b", none, ""⟩, .int)]))
      "b" = some 1 := by
  have h := c8_write_read_header [(⟨"a", none, ""⟩, .str), (⟨"b", none, ""⟩, .int)]
    (by decide) 1 (by decide)
  exact ⟨by decide, by decide, h.2.1, h.2.2⟩

/-- C2 (amended): ReadAll implements the iteration of ReadRecord — it
collects the successfully decoded records, stops cleanly on io.EOF with a
nil error (so a header-only input yields an empty successful result), and on
the first non-EOF error it returns immediately, with the error accompanied
by the partial collection of already-decoded records. -/
theorem c2_readAll_iterates (schema : Schema) (r : TypedCSVReader)
    (recs : List (List GoVal)) (out : Option GoError)
    (h : ReadsTo schema r recs out) : r.readAll schema = (recs, out) := by
  induction h with
  | stop r r2 hr => exact readAll_stop schema r r2 hr
  | fail r r2 e hr hne => exact readAll_err schema r r2 e hr hne
  | step r r2 rec recs out hr hrest ih =>
    rw [readAll_step schema r r2 rec hr, ih]

theorem c2_witness :
    ((⟨⟨[["n"]], none⟩, none⟩ : TypedCSVReader).readHeader).1 = .ok () ∧
    ((⟨⟨[["n"]], none⟩, none⟩ : TypedCSVReader).readHeader).2.readAll
      [(⟨"n", none, ""⟩, .int)] = ([], none) := by
  refine ⟨rfl, ?_⟩
  exact c2_readAll_iterates [(⟨"n", none, ""⟩, .int)] _ [] none
    (ReadsTo.stop _ ⟨⟨[], some 1⟩, some (buildHeader ["n"])⟩ (by decide))

/-- C2 counterexample: on input whose second data row fails to decode,
ReadAll returns the error together with the non-empty partial collection of
already-decoded records — not "without the partial collection" as the claim
states. -/
theorem c2_cex :
    (⟨⟨[["1"], ["x"]], some 1⟩, some (buildHeader ["n"])⟩ : TypedCSVReader).readAll
        [(⟨"n", none, ""⟩, .int)] =
      ([[GoVal.vint 1]], some (.fieldParse "n" .badSyntax)) ∧
    ([[GoVal.vint 1]] : List (List GoVal)) ≠ [] := by
  constructor
  · rw [readAll_step [(⟨"n", none, ""⟩, .int)] _
      ⟨⟨[["x"]], some 1⟩, some (buildHeader ["n"])⟩ [GoVal.vint 1] (by decide)]
    rw [readAll_err [(⟨"n", none, ""⟩, .int)] _
      ⟨⟨[], some 1⟩, some (buildHeader ["n"])⟩ (.fieldParse "n" .badSyntax)
      (by decide) (by decide)]
  · simp

/-! ### Slice decoding: first failing piece wins -/

theorem decodePieces_first_error (name : String) (τe : GoTy) :
    ∀ (ps : List String) (i k : Nat) (piece : String) (cause : ParseCause),
      ps.get? i = some piece → goScan τe piece = .error cause →
      (∀ j, j < i → ∀ pj, ps.get? j = some pj → ∃ b, goScan τe pj = .ok b) →
      decodePieces name τe ps k =
        .error (.fieldParse (name ++ "[" ++ toString (k + i) ++ "]") cause) := by
  intro ps
  induction ps with
  | nil => intro i k piece cause hp _ _; simp at hp
  | cons p ps ih =>
    intro i k piece cause hp herr hbefore
    cases i with
    | zero =>
      simp only [List.get?] at hp
      injection hp with hp
      subst hp
      simp only [decodePieces, herr]
      rfl
    | succ i =>
      simp only [List.get?] at hp
      obtain ⟨b, hb⟩ := hbefore 0 (Nat.succ_pos i) p rfl
      have hkk : k + (i + 1) = (k + 1) + i := by omega
      rw [hkk]
      simp only [decodePieces, hb]
      rw [ih i (k + 1) piece cause hp herr ?_]
      · rfl
      · intro j hj pj hpj
        exact hbefore (j + 1) (Nat.succ_lt_succ hj) pj hpj

/-- C3 (amended): slice decoding splits the raw cell on the declared
separator and scans each piece with the generic scalar scanner, but without
the empty-input-to-zero fallback of the default branch: the first piece
whose scan fails — including io.EOF on an empty piece — aborts the record
with a FieldParseError attributed to "column[index]".  In particular,
decoding "a;;c" with separator ";" into a string-slice field fails at
"col[1]" instead of producing a zero-valued middle element. -/
theorem c3_slice_piece_scan (name sepStr : String) (τe : GoTy) (value piece : String)
    (i : Nat) (cause : ParseCause)
    (hp : (goSplit value sepStr).get? i = some piece)
    (herr : goScan τe piece = .error cause)
    (hbefore : ∀ j, j < i → ∀ pj, (goSplit value sepStr).get? j = some pj →
      ∃ b, goScan τe pj = .ok b) :
    decodeValue value ⟨name, none, sepStr⟩ (.slice τe) =
      .error (.fieldParse (name ++ "[" ++ toString i ++ "]") cause) := by
  simp only [decodeValue]
  rw [decodePieces_first_error name τe (goSplit value sepStr) i 0 piece cause hp herr hbefore]
  simp only [Except.map]
  rw [Nat.zero_add]

theorem c3_witness :
    (goSplit "a;;c" ";").get? 1 = some "" ∧
    goScan .str "" = .error .eof ∧
    decodeValue "a;;c" ⟨"col", none, ";"⟩ (.slice .str) =
      .error (.fieldParse "col[1]" .eof) := by
  refine ⟨by decide, by decide, ?_⟩
  refine c3_slice_piece_scan "col" ";" .str "a;;c" "" 1 .eof (by decide) (by decide) ?_
  intro j hj pj hpj
  interval_cases j
  have h0 : (goSplit "a;;c" ";").get? 0 = some "a" := by decide
  rw [h0] at hpj
  injection hpj with hpj
  subst hpj
  exact ⟨.bstr "a", by decide⟩

/-- C3 counterexample: decoding "a;;c" with separator ";" into a string
slice does not succeed with a zero-valued middle element; it fails with a
FieldParseError at "col[1]" whose cause is io.EOF. -/
theorem c3_cex :
    decodeValue "a;;c" ⟨"col", none, ";"⟩ (.slice .str) =
      .error (.fieldParse "col[1]" .eof) ∧
    decodeValue "a;;c" ⟨"col", none, ";"⟩ (.slice .str) ≠
      .ok (.vslice .str [.bstr "a", .bstr "", .bstr "c"]) := by
  decide

/-! ### Decimal printing scans back to the same number -/

theorem string_mk_data (s : String) : String.mk s.data = s := by
  cases s
  rfl

theorem digitChar_spec (n : Nat) (h : n < 10) :
    (digitChar n).isDigit = true ∧ isGoSpace (digitChar n) = false ∧
    digitChar n ≠ '-' ∧ digitChar n ≠ '+' ∧ digitVal (digitChar n) = n := by
  interval_cases n <;> exact ⟨by decide, by decide, by decide, by decide, by decide⟩

theorem digitsVal_append (xs : List Char) (c : Char) :
    digitsVal (xs ++ [c]) = 10 * digitsVal xs + digitVal c := by
  simp [digitsVal, List.foldl_append]

theorem natDigitsAux_spec : ∀ (fuel n : Nat), n ≤ fuel →
    digitsVal (natDigitsAux fuel n) = n ∧
    (∀ c ∈ natDigitsAux fuel n,
      c.isDigit = true ∧ isGoSpace c = false ∧ c ≠ '-' ∧ c ≠ '+') ∧
    (n ≠ 0 → natDigitsAux fuel n ≠ []) := by
  intro fuel
  induction fuel with
  | zero =>
    intro n hn
    have h0 : n = 0 := Nat.le_zero.mp hn
    subst h0
    exact ⟨rfl, by simp [natDigitsAux], fun h => absurd rfl h⟩
  | succ fuel ih =>
    intro n hn
    by_cases h0 : n = 0
    · subst h0
      exact ⟨rfl, by simp [natDigitsAux], fun h => absurd rfl h⟩
    · have hlt : n / 10 < n := Nat.div_lt_self (Nat.pos_of_ne_zero h0) (by norm_num)
      have hdiv : n / 10 ≤ fuel := by omega
      obtain ⟨ih1, ih2, _⟩ := ih (n / 10) hdiv
      have hmod : n % 10 < 10 := Nat.mod_lt _ (by norm_num)
      obtain ⟨hd1, hd2, hd3, hd4, hd5⟩ := digitChar_spec (n % 10) hmod
      have heq : natDigitsAux (fuel + 1) n =
          natDigitsAux fuel (n / 10) ++ [digitChar (n % 10)] := by
        simp [natDigitsAux, h0]
      refine ⟨?_, ?_, ?_⟩
      · rw [heq, digitsVal_append, ih1, hd5]
        omega
      · intro c hc
        rw [heq] at hc
        rcases List.mem_append.mp hc with hc | hc
        · exact ih2 c hc
        · rw [List.mem_singleton.mp hc]
          exact ⟨hd1, hd2, hd3, hd4⟩
      · intro _
        rw [heq]
        simp

theorem natToDecimal_spec (n : Nat) :
    digitsVal (natToDecimal n) = n ∧
    (∀ c ∈ natToDecimal n,
      c.isDigit = true ∧ isGoSpace c = false ∧ c ≠ '-' ∧ c ≠ '+') ∧
    natToDecimal n ≠ [] := by
  by_cases h0 : n = 0
  · subst h0
    exact ⟨by decide, by decide, by decide⟩
  · obtain ⟨h1, h2, h3⟩ := natDigitsAux_spec n n le_rfl
    simp only [natToDecimal, if_neg h0]
    exact ⟨h1, h2, h3 h0⟩

theorem intToDecimal_ne_nil (n : Int) : intToDecimal n ≠ [] := by
  simp only [intToDecimal]
  split
  · simp
  · exact (natToDecimal_spec n.toNat).2.2

theorem dropSpaces_eq_self {l : List Char} (h : ∀ c ∈ l, isGoSpace c = false) :
    dropSpaces l = l := by
  cases l with
  | nil => rfl
  | cons c rest =>
    simp [dropSpaces, List.dropWhile_cons, h c (List.mem_cons_self c rest)]

theorem takeWhile_eq_self {p : Char → Bool} {l : List Char} (h : ∀ c ∈ l, p c = true) :
    l.takeWhile p = l := by
  induction l with
  | nil => rfl
  | cons c rest ih =>
    rw [List.takeWhile_cons, h c (List.mem_cons_self c rest)]
    simp [ih fun x hx => h x (List.mem_cons_of_mem c hx)]

theorem scanIntChars_all_digits (l : List Char) (hne : l ≠ [])
    (hdig : ∀ c ∈ l, c.isDigit = true ∧ isGoSpace c = false ∧ c ≠ '-' ∧ c ≠ '+') :
    scanIntChars l = .ok (digitsVal l : Int) := by
  obtain ⟨c, rest, rfl⟩ := List.exists_cons_of_ne_nil hne
  have hnos : ∀ x ∈ c :: rest, isGoSpace x = false := fun x hx => (hdig x hx).2.1
  obtain ⟨hd, hsp, hm, hp⟩ := hdig c (List.mem_cons_self c rest)
  have hdrop : dropSpaces (c :: rest) = c :: rest := dropSpaces_eq_self hnos
  have htw : (c :: rest).takeWhile Char.isDigit = c :: rest :=
    takeWhile_eq_self fun x hx => (hdig x hx).1
  simp [scanIntChars, hdrop, if_neg hm, if_neg hp, htw]

theorem scanIntChars_intToDecimal (n : Int) : scanIntChars (intToDecimal n) = .ok n := by
  by_cases hneg : n < 0
  · rw [intToDecimal, if_pos hneg]
    obtain ⟨hval, hdig, hne⟩ := natToDecimal_spec n.natAbs
    have hdrop : dropSpaces ('-' :: natToDecimal n.natAbs) = '-' :: natToDecimal n.natAbs := by
      apply dropSpaces_eq_self
      intro x hx
      rcases List.mem_cons.mp hx with rfl | hx
      · decide
      · exact (hdig x hx).2.1
    have htw : (natToDecimal n.natAbs).takeWhile Char.isDigit = natToDecimal n.natAbs :=
      takeWhile_eq_self fun x hx => (hdig x hx).1
    have hval' : -(digitsVal (natToDecimal n.natAbs) : Int) = n := by
      rw [hval]
      omega
    simp [scanIntChars, hdrop, htw, hne, hval']
  · rw [intToDecimal, if_neg hneg]
    obtain ⟨hval, hdig, hne⟩ := natToDecimal_spec n.toNat
    rw [scanIntChars_all_digits _ hne hdig, hval]
    congr 1
    omega

/-! ### Scalar values rescan to themselves -/

theorem noWSb_spec {s : String} (h : noWSb s = true) :
    ∀ c ∈ s.data, isGoSpace c = false := by
  intro c hc
  have := (List.all_eq_true.mp h) c hc
  simpa using this

theorem goScan_str_noWS (s : String) (h : noWSb s = true) (hne : s.data ≠ []) :
    goScan .str s = .ok (.bstr s) := by
  have hall := noWSb_spec h
  have hdrop : dropSpaces s.data = s.data := dropSpaces_eq_self hall
  obtain ⟨c, rest, hL⟩ := List.exists_cons_of_ne_nil hne
  have htw : s.data.takeWhile (fun c => !isGoSpace c) = s.data :=
    takeWhile_eq_self fun c hc => by rw [hall c hc]; rfl
  have hstep : goScan .str s =
      match dropSpaces s.data with
      | [] => .error .eof
      | cs => .ok (.bstr (String.mk (cs.takeWhile (fun c => !isGoSpace c)))) := rfl
  rw [hstep, hdrop, hL]
  show Except.ok (GoBase.bstr (String.mk ((c :: rest).takeWhile fun x => !isGoSpace x))) =
    Except.ok (.bstr s)
  rw [← hL, htw, string_mk_data]

theorem goScan_fmtB (τ : GoTy) (b : GoBase) (hok : scalarOKb τ b = true)
    (hne : (fmtB b).data ≠ []) : goScan τ (fmtB b) = .ok b := by
  cases τ with
  | str =>
    cases b with
    | bstr s => exact goScan_str_noWS s hok hne
    | bint n => simp [scalarOKb] at hok
    | bbool v => simp [scalarOKb] at hok
  | int =>
    cases b with
    | bstr s => simp [scalarOKb] at hok
    | bint n =>
      show (scanIntChars (intToDecimal n)).map GoBase.bint = .ok (.bint n)
      rw [scanIntChars_intToDecimal]
      rfl
    | bbool v => simp [scalarOKb] at hok
  | bool =>
    cases b with
    | bstr s => simp [scalarOKb] at hok
    | bint n => simp [scalarOKb] at hok
    | bbool v => cases v <;> decide
  | opt τi => simp [scalarOKb] at hok
  | slice τe => simp [scalarOKb] at hok

theorem empty_of_data_nil {s : String} (h : s.data = []) : s = "" := by
  rw [← string_mk_data s, h]

theorem decodeScalarB_fmtB (τ : GoTy) (b : GoBase) (name : String)
    (hok : scalarOKb τ b = true) : decodeScalarB (fmtB b) name τ = .ok b := by
  by_cases hne : (fmtB b).data = []
  · cases τ with
    | str =>
      cases b with
      | bstr s =>
        have hs : s = "" := empty_of_data_nil hne
        subst hs
        rfl
      | bint n => simp [scalarOKb] at hok
      | bbool v => simp [scalarOKb] at hok
    | int =>
      cases b with
      | bstr s => simp [scalarOKb] at hok
      | bint n => exact absurd hne (intToDecimal_ne_nil n)
      | bbool v => simp [scalarOKb] at hok
    | bool =>
      cases b with
      | bstr s => simp [scalarOKb] at hok
      | bint n => simp [scalarOKb] at hok
      | bbool v => cases v <;> exact absurd hne (by decide)
    | opt τi => simp [scalarOKb] at hok
    | slice τe => simp [scalarOKb] at hok
  · have hg := goScan_fmtB τ b hok hne
    simp [decodeScalarB, hg]

/-! ### Splitting a join on a separator recovers the pieces -/

theorem isPrefixOf_append_self (l t : List Char) : l.isPrefixOf (l ++ t) = true := by
  induction l with
  | nil => cases t <;> rfl
  | cons a l ih => simp [List.isPrefixOf, ih]

theorem splitChars_nil (c0 : Char) (sep1 : List Char) (fuel : Nat) (acc : List Char) :
    splitChars c0 sep1 fuel [] acc = [acc.reverse] := by
  cases fuel <;> rfl

theorem splitChars_step (c0 : Char) (sep1 : List Char) (fuel : Nat) (c : Char)
    (cs acc : List Char) :
    splitChars c0 sep1 (fuel + 1) (c :: cs) acc =
      if (c = c0 && sep1.isPrefixOf cs) = true then
        acc.reverse :: splitChars c0 sep1 fuel (cs.drop sep1.length) []
      else splitChars c0 sep1 fuel cs (c :: acc) := rfl

theorem splitChars_fuel (c0 : Char) (sep1 : List Char) :
    ∀ (f g : Nat) (cs acc : List Char), cs.length ≤ f → cs.length ≤ g →
      splitChars c0 sep1 f cs acc = splitChars c0 sep1 g cs acc := by
  intro f
  induction f with
  | zero =>
    intro g cs acc h1 _
    have hnil : cs = [] := List.length_eq_zero.mp (Nat.le_zero.mp h1)
    subst hnil
    cases g <;> rfl
  | succ f ih =>
    intro g cs acc h1 h2
    cases cs with
    | nil => cases g <;> rfl
    | cons c rest =>
      cases g with
      | zero => simp at h2
      | succ g =>
        have h1' : rest.length ≤ f := by simp at h1; omega
        have h2' : rest.length ≤ g := by simp at h2; omega
        rw [splitChars_step, splitChars_step]
        by_cases hc : (c = c0 && sep1.isPrefixOf rest) = true
        · rw [if_pos hc, if_pos hc]
          have hd1 : (rest.drop sep1.length).length ≤ f := by
            simp [List.length_drop]
            omega
          have hd2 : (rest.drop sep1.length).length ≤ g := by
            simp [List.length_drop]
            omega
          rw [ih g _ [] hd1 hd2]
        · rw [if_neg hc, if_neg hc]
          exact ih g rest (c :: acc) h1' h2'

theorem splitChars_no_sep (c0 : Char) (sep1 : List Char) :
    ∀ (p : List Char) (fuel : Nat) (acc : List Char), p.length ≤ fuel → c0 ∉ p →
      splitChars c0 sep1 fuel p acc = [acc.reverse ++ p] := by
  intro p
  induction p with
  | nil =>
    intro fuel acc _ _
    rw [splitChars_nil]
    simp
  | cons c rest ih =>
    intro fuel acc hfuel hfree
    have hc : ¬c = c0 := fun h => hfree (by rw [← h]; exact List.mem_cons_self c rest)
    cases fuel with
    | zero => simp at hfuel
    | succ fuel =>
      have hcond : ¬((c = c0 && sep1.isPrefixOf rest) = true) := by simp [hc]
      rw [splitChars_step, if_neg hcond]
      rw [ih fuel (c :: acc) (by simp at hfuel; omega)
        (fun hm => hfree (List.mem_cons_of_mem c hm))]
      simp

theorem splitChars_append_sep (c0 : Char) (sep1 : List Char) :
    ∀ (p rest acc : List Char) (fuel : Nat),
      (p ++ (c0 :: sep1) ++ rest).length ≤ fuel → c0 ∉ p →
      splitChars c0 sep1 fuel (p ++ (c0 :: sep1) ++ rest) acc =
        (acc.reverse ++ p) :: splitChars c0 sep1 rest.length rest [] := by
  intro p
  induction p with
  | nil =>
    intro rest acc fuel hfuel hfree
    cases fuel with
    | zero => simp at hfuel
    | succ fuel =>
      have hcond : (c0 = c0 && sep1.isPrefixOf (sep1 ++ rest)) = true := by
        simp [isPrefixOf_append_self]
      have hlenrest : rest.length ≤ fuel := by simp at hfuel; omega
      simp only [List.nil_append, List.cons_append]
      rw [splitChars_step, if_pos hcond, List.drop_left]
      rw [splitChars_fuel c0 sep1 fuel rest.length rest [] hlenrest le_rfl]
      simp
  | cons c p ih =>
    intro rest acc fuel hfuel hfree
    have hc : ¬c = c0 := fun h => hfree (by rw [← h]; exact List.mem_cons_self c p)
    cases fuel with
    | zero => simp at hfuel
    | succ fuel =>
      have hcond : ¬((c = c0 && sep1.isPrefixOf (p ++ (c0 :: sep1) ++ rest)) = true) := by
        simp [hc]
      simp only [List.cons_append]
      rw [splitChars_step, if_neg hcond]
      rw [ih rest (c :: acc) fuel (by simp at hfuel ⊢; omega)
        (fun hm => hfree (List.mem_cons_of_mem c hm))]
      simp

theorem splitChars_joinChars (c0 : Char) (sep1 : List Char) :
    ∀ (ps : List (List Char)), ps ≠ [] → (∀ p ∈ ps, c0 ∉ p) →
      splitChars c0 sep1 (joinChars (c0 :: sep1) ps).length (joinChars (c0 :: sep1) ps) [] =
        ps := by
  intro ps
  induction ps with
  | nil => intro h _; exact absurd rfl h
  | cons p ps ih =>
    intro _ hfree
    cases ps with
    | nil =>
      simp only [joinChars]
      rw [splitChars_no_sep c0 sep1 p p.length [] le_rfl (hfree p (List.mem_cons_self p []))]
      simp
    | cons q ps' =>
      have hjoin : joinChars (c0 :: sep1) (p :: q :: ps') =
          p ++ (c0 :: sep1) ++ joinChars (c0 :: sep1) (q :: ps') := rfl
      rw [hjoin]
      rw [splitChars_append_sep c0 sep1 p (joinChars (c0 :: sep1) (q :: ps')) [] _ le_rfl
        (hfree p (List.mem_cons_self p _))]
      rw [ih (by simp) (fun x hx => hfree x (List.mem_cons_of_mem p hx))]
      simp

theorem string_data_append (a b : String) : (a ++ b).data = a.data ++ b.data := by
  cases a
  cases b
  rfl

theorem joinSep_data (sep : String) :
    ∀ (ps : List String), (joinSep sep ps).data = joinChars sep.data (ps.map String.data) := by
  intro ps
  induction ps with
  | nil => rfl
  | cons x ps ih =>
    cases ps with
    | nil => rfl
    | cons y ps' =>
      show (x ++ sep ++ joinSep sep (y :: ps')).data = _
      rw [string_data_append, string_data_append, ih]
      rfl

theorem map_mk_data : ∀ (ps : List String), (ps.map String.data).map String.mk = ps := by
  intro ps
  induction ps with
  | nil => rfl
  | cons x ps ih => simp [ih, string_mk_data]

theorem goSplit_joinSep (sep : String) (ps : List String) (c0 : Char) (sep1 : List Char)
    (hsep : sep.data = c0 :: sep1) (hne : ps ≠ [])
    (hfree : ∀ p ∈ ps, c0 ∉ p.data) : goSplit (joinSep sep ps) sep = ps := by
  have hmapne : ps.map String.data ≠ [] := by
    intro h
    exact hne (List.map_eq_nil.mp h)
  have hfree' : ∀ p ∈ ps.map String.data, c0 ∉ p := by
    intro p hp
    rcases List.mem_map.mp hp with ⟨q, hq, rfl⟩
    exact hfree q hq
  unfold goSplit
  rw [hsep]
  show (splitChars c0 sep1 (joinSep sep ps).data.length (joinSep sep ps).data []).map
      String.mk = ps
  rw [joinSep_data sep ps, hsep]
  rw [splitChars_joinChars c0 sep1 (ps.map String.data) hmapne hfree']
  exact map_mk_data ps

/-! ### Per-field round trip under `rtOK` -/

theorem decodeValue_opt_eq (value : String) (tag : GoTag) (τi : GoTy) :
    decodeValue value tag (.opt τi) =
      match tag.null with
      | some nt =>
        if value = nt then .ok (.vopt τi none)
        else (decodeScalarB value tag.csv τi).map (fun v => .vopt τi (some v))
      | none => (decodeScalarB value tag.csv τi).map (fun v => .vopt τi (some v)) := rfl

theorem isEmpty_false_data_ne_nil {s : String} (h : s.isEmpty = false) : s.data ≠ [] := by
  intro hd
  have hs : s = "" := empty_of_data_nil hd
  subst hs
  exact absurd h (by decide)

theorem decodePieces_ok (name : String) (τe : GoTy) :
    ∀ (xs : List GoBase), (∀ x ∈ xs, goScan τe (fmtB x) = .ok x) →
      ∀ i, decodePieces name τe (xs.map fmtB) i = .ok xs := by
  intro xs
  induction xs with
  | nil => intro _ i; rfl
  | cons x xs ih =>
    intro h i
    have hx := h x (List.mem_cons_self x xs)
    simp only [List.map_cons, decodePieces, hx]
    rw [ih (fun y hy => h y (List.mem_cons_of_mem x hy)) (i + 1)]
    rfl

theorem decodeValue_writeField (tag : GoTag) (τ : GoTy) (v : GoVal)
    (h : rtOK tag τ v = true) : decodeValue (writeField tag v) tag τ = .ok v := by
  cases τ with
  | str =>
    cases v with
    | vstr s =>
      have hs : scalarOKb .str (.bstr s) = true := h
      have hd := decodeScalarB_fmtB .str (.bstr s) tag.csv hs
      show (decodeScalarB (fmtB (.bstr s)) tag.csv .str).map GoBase.toVal = .ok (.vstr s)
      rw [hd]
      rfl
    | vint n => exact Bool.noConfusion h
    | vbool b => exact Bool.noConfusion h
    | vopt τj ov => exact Bool.noConfusion h
    | vslice τj xs => exact Bool.noConfusion h
  | int =>
    cases v with
    | vstr s => exact Bool.noConfusion h
    | vint n =>
      have hd := decodeScalarB_fmtB .int (.bint n) tag.csv rfl
      show (decodeScalarB (fmtB (.bint n)) tag.csv .int).map GoBase.toVal = .ok (.vint n)
      rw [hd]
      rfl
    | vbool b => exact Bool.noConfusion h
    | vopt τj ov => exact Bool.noConfusion h
    | vslice τj xs => exact Bool.noConfusion h
  | bool =>
    cases v with
    | vstr s => exact Bool.noConfusion h
    | vint n => exact Bool.noConfusion h
    | vbool b =>
      have hd := decodeScalarB_fmtB .bool (.bbool b) tag.csv rfl
      show (decodeScalarB (fmtB (.bbool b)) tag.csv .bool).map GoBase.toVal = .ok (.vbool b)
      rw [hd]
      rfl
    | vopt τj ov => exact Bool.noConfusion h
    | vslice τj xs => exact Bool.noConfusion h
  | opt τi =>
    cases v with
    | vstr s => exact Bool.noConfusion h
    | vint n => exact Bool.noConfusion h
    | vbool b => exact Bool.noConfusion h
    | vslice τj xs => exact Bool.noConfusion h
    | vopt τj ov =>
      cases ov with
      | none =>
        simp only [rtOK, Bool.and_eq_true, decide_eq_true_eq] at h
        obtain ⟨hji, hns⟩ := h
        subst hji
        obtain ⟨nt, hnt⟩ := Option.isSome_iff_exists.mp hns
        show decodeValue (tag.null.getD "") tag (.opt τj) = .ok (.vopt τj none)
        rw [decodeValue_opt_eq, hnt]
        dsimp only
        rw [if_pos (show (some nt).getD "" = nt from rfl)]
      | some inner =>
        cases hnt : tag.null with
        | none =>
          simp only [rtOK, hnt, Bool.and_eq_true, decide_eq_true_eq] at h
          obtain ⟨hji, hsc⟩ := h
          subst hji
          show decodeValue (fmtB inner) tag (.opt τj) = .ok (.vopt τj (some inner))
          rw [decodeValue_opt_eq, hnt]
          dsimp only
          rw [decodeScalarB_fmtB τj inner tag.csv hsc.1]
          rfl
        | some nt =>
          simp only [rtOK, hnt, Bool.and_eq_true, decide_eq_true_eq] at h
          obtain ⟨hji, hsc, hne⟩ := h
          subst hji
          show decodeValue (fmtB inner) tag (.opt τj) = .ok (.vopt τj (some inner))
          rw [decodeValue_opt_eq, hnt]
          dsimp only
          rw [if_neg hne]
          rw [decodeScalarB_fmtB τj inner tag.csv hsc]
          rfl
  | slice τe =>
    cases v with
    | vstr s => exact Bool.noConfusion h
    | vint n => exact Bool.noConfusion h
    | vbool b => exact Bool.noConfusion h
    | vopt τj ov => exact Bool.noConfusion h
    | vslice τj xs =>
      cases hsd : tag.separator.data with
      | nil => simp [rtOK, hsd] at h
      | cons c0 sep1 =>
        simp only [rtOK, hsd, Bool.and_eq_true, decide_eq_true_eq] at h
        obtain ⟨⟨hje, hxe⟩, hall⟩ := h
        subst hje
        have hxne : xs ≠ [] := by
          intro hx
          subst hx
          simp at hxe
        have hcond : ∀ x ∈ xs,
            scalarOKb τj x = true ∧ (fmtB x).isEmpty = false ∧ c0 ∉ (fmtB x).data := by
          intro x hx
          have := List.all_eq_true.mp hall x hx
          simp only [Bool.and_eq_true, Bool.not_eq_true', decide_eq_true_eq] at this
          exact ⟨this.1.1, this.1.2, this.2⟩
        have hmapne : xs.map fmtB ≠ [] := by
          intro hm
          exact hxne (List.map_eq_nil.mp hm)
        have hfree : ∀ p ∈ xs.map fmtB, c0 ∉ p.data := by
          intro p hp
          rcases List.mem_map.mp hp with ⟨x, hx, rfl⟩
          exact (hcond x hx).2.2
        have hsplit : goSplit (joinSep tag.separator (xs.map fmtB)) tag.separator =
            xs.map fmtB :=
          goSplit_joinSep tag.separator (xs.map fmtB) c0 sep1 hsd hmapne hfree
        have hscan : ∀ x ∈ xs, goScan τj (fmtB x) = .ok x := by
          intro x hx
          exact goScan_fmtB τj x (hcond x hx).1 (isEmpty_false_data_ne_nil (hcond x hx).2.1)
        show (decodePieces tag.csv τj
            (goSplit (joinSep tag.separator (xs.map fmtB)) tag.separator) 0).map
            (GoVal.vslice τj) = .ok (.vslice τj xs)
        rw [hsplit, decodePieces_ok tag.csv τj xs hscan 0]
        rfl

/-! ### Record-level round trip -/

theorem rtRecord_length : ∀ (s : Schema) (r : List GoVal),
    rtRecord s r = true → s.length = r.length := by
  intro s
  induction s with
  | nil =>
    intro r h
    cases r with
    | nil => rfl
    | cons v vs => exact Bool.noConfusion h
  | cons d s ih =>
    intro r h
    cases r with
    | nil => exact Bool.noConfusion h
    | cons v vs =>
      simp only [rtRecord, Bool.and_eq_true] at h
      simp [ih vs h.2]

theorem rtRecord_get : ∀ (s : Schema) (r : List GoVal), rtRecord s r = true →
    ∀ (j : Nat) (d : GoTag × GoTy) (v : GoVal), s.get? j = some d → r.get? j = some v →
      rtOK d.1 d.2 v = true := by
  intro s
  induction s with
  | nil => intro r _ j d v hd _; simp at hd
  | cons d0 s ih =>
    intro r h j d v hd hv
    cases r with
    | nil => exact Bool.noConfusion h
    | cons v0 vs =>
      simp only [rtRecord, Bool.and_eq_true] at h
      cases j with
      | zero =>
        simp only [List.get?] at hd hv
        injection hd with hd
        injection hv with hv
        subst hd
        subst hv
        exact h.1
      | succ j =>
        simp only [List.get?] at hd hv
        exact ih vs h.2 j d v hd hv

theorem get?_zipWith {α β γ : Type} (f : α → β → γ) :
    ∀ (as : List α) (bs : List β) (j : Nat) (a : α) (b : β),
      as.get? j = some a → bs.get? j = some b →
      (List.zipWith f as bs).get? j = some (f a b) := by
  intro as
  induction as with
  | nil => intro bs j a b ha _; simp at ha
  | cons a0 as ih =>
    intro bs j a b ha hb
    cases bs with
    | nil => simp at hb
    | cons b0 bs =>
      cases j with
      | zero =>
        simp only [List.get?] at ha hb
        injection ha with ha
        injection hb with hb
        subst ha
        subst hb
        rfl
      | succ j =>
        simp only [List.get?] at ha hb
        exact ih bs j a b ha hb

theorem getD_of_get? {α : Type} : ∀ (l : List α) (j : Nat) (x d : α),
    l.get? j = some x → l.getD j d = x := by
  intro l
  induction l with
  | nil => intro j x d h; simp at h
  | cons a l ih =>
    intro j x d h
    cases j with
    | zero =>
      simp only [List.get?] at h
      injection h with h
    | succ j =>
      simp only [List.get?] at h
      exact ih j x d h

theorem decodeRecord_pointwise (hIdx : List (String × Nat)) (row : List String) :
    ∀ (s : Schema) (rvals : List GoVal) (k : Nat),
      s.length = rvals.length →
      (∀ j d v, s.get? j = some d → rvals.get? j = some v →
        mapFind hIdx d.1.csv = some (k + j) ∧ row.getD (k + j) "" = writeField d.1 v ∧
        rtOK d.1 d.2 v = true) →
      decodeRecord hIdx row s = .ok rvals := by
  intro s
  induction s with
  | nil =>
    intro rvals k hlen _
    cases rvals with
    | nil => rfl
    | cons v vs => simp at hlen
  | cons d s ih =>
    intro rvals k hlen hpt
    cases rvals with
    | nil => simp at hlen
    | cons v vs =>
      obtain ⟨tag, τ⟩ := d
      obtain ⟨hfind, hcell, hrt⟩ := hpt 0 (tag, τ) v rfl rfl
      have hfind' : mapFind hIdx tag.csv = some (k + 0) := hfind
      have hcell' : row.getD (k + 0) "" = writeField tag v := hcell
      have hfield : decodeField hIdx row tag τ = .ok v := by
        simp only [decodeField, hfind']
        rw [hcell']
        exact decodeValue_writeField tag τ v hrt
      simp only [decodeRecord, hfield]
      rw [ih vs (k + 1) (by simpa using hlen) ?_]
      · rfl
      · intro j d' v' hd' hv'
        have hshift := hpt (j + 1) d' v' hd' hv'
        have hkj : k + (j + 1) = (k + 1) + j := by omega
        rw [hkj] at hshift
        exact hshift

/-- C1 (amended): for every schema in the modelled fragment with pairwise
distinct column names, writing a record with WriteHeader/WriteRecord and
decoding the produced row with ReadHeader/ReadRecord under the same schema
returns a record equal to the original, provided every field value is
faithfully rescannable (`rtOK`): strings contain no whitespace, absent
optionals have a declared null token, present optionals are scalars whose
rendering differs from the null token, and slices are non-empty with a
non-empty separator and scalar elements whose renderings are non-empty and
avoid the separator's first character.  Fields with format or time tags are
outside the modelled fragment, matching the claim's exclusion of lossy
format specs. -/
theorem c1_roundtrip (schema : Schema) (rec : List GoVal)
    (hnd : (writeHeaderRow schema).Nodup) (hrt : rtRecord schema rec = true) :
    ((⟨⟨[writeHeaderRow schema, writeRecordRow schema rec], none⟩, none⟩ :
        TypedCSVReader).readHeader).1 = .ok () ∧
    (((⟨⟨[writeHeaderRow schema, writeRecordRow schema rec], none⟩, none⟩ :
        TypedCSVReader).readHeader).2.readRecord schema).1 = .ok rec := by
  have hlen : schema.length = rec.length := rtRecord_length schema rec hrt
  have hrowlen : (writeRecordRow schema rec).length = (writeHeaderRow schema).length := by
    simp [writeRecordRow, writeHeaderRow, List.length_zipWith]
    omega
  refine ⟨rfl, ?_⟩
  have hrh : ((⟨⟨[writeHeaderRow schema, writeRecordRow schema rec], none⟩, none⟩ :
      TypedCSVReader).readHeader).2 =
      ⟨⟨[writeRecordRow schema rec], some (writeHeaderRow schema).length⟩,
        some (buildHeader (writeHeaderRow schema))⟩ := rfl
  rw [hrh]
  have hread : CSVReader.read
      ⟨[writeRecordRow schema rec], some (writeHeaderRow schema).length⟩ =
      (.ok (writeRecordRow schema rec), ⟨[], some (writeHeaderRow schema).length⟩) := by
    simp only [CSVReader.read]
    rw [if_pos hrowlen]
  simp only [TypedCSVReader.readRecord, hread]
  show decodeRecord (buildHeader (writeHeaderRow schema)) (writeRecordRow schema rec)
    schema = .ok rec
  apply decodeRecord_pointwise (buildHeader (writeHeaderRow schema))
    (writeRecordRow schema rec) schema rec 0 hlen
  intro j d v hd hv
  refine ⟨?_, ?_, rtRecord_get schema rec hrt j d v hd hv⟩
  · rw [Nat.zero_add]
    apply mapFind_buildHeader_nodup _ hnd
    rw [writeHeaderRow, List.get?_map, hd]
    rfl
  · rw [Nat.zero_add]
    apply getD_of_get?
    rw [writeRecordRow]
    exact get?_zipWith _ schema rec j d v hd hv

theorem c1_witness :
    (writeHeaderRow [(⟨"name", none, ""⟩, .str), (⟨"age", none, ""⟩, .int),
      (⟨"ok", none, ""⟩, .bool), (⟨"opt", some "NULL", ""⟩, .opt .str),
      (⟨"pets", none, ";"⟩, .slice .str)]).Nodup ∧
    rtRecord [(⟨"name", none, ""⟩, .str), (⟨"age", none, ""⟩, .int),
      (⟨"ok", none, ""⟩, .bool), (⟨"opt", some "NULL", ""⟩, .opt .str),
      (⟨"pets", none, ";"⟩, .slice .str)]
      [.vstr "John", .vint (-5), .vbool true, .vopt .str none,
        .vslice .str [.bstr "a", .bstr "b"]] = true ∧
    (((⟨⟨[writeHeaderRow [(⟨"name", none, ""⟩, .str), (⟨"age", none, ""⟩, .int),
        (⟨"ok", none, ""⟩, .bool), (⟨"opt", some "NULL", ""⟩, .opt .str),
        (⟨"pets", none, ";"⟩, .slice .str)],
      writeRecordRow [(⟨"name", none, ""⟩, .str), (⟨"age", none, ""⟩, .int),
        (⟨"ok", none, ""⟩, .bool), (⟨"opt", some "NULL", ""⟩, .opt .str),
        (⟨"pets", none, ";"⟩, .slice .str)]
        [.vstr "John", .vint (-5), .vbool true, .vopt .str none,
          .vslice .str [.bstr "a", .bstr "b"]]], none⟩, none⟩ :
        TypedCSVReader).readHeader).1 = .ok () ∧
      (((⟨⟨[writeHeaderRow [(⟨"name", none, ""⟩, .str), (⟨"age", none, ""⟩, .int),
        (⟨"ok", none, ""⟩, .bool), (⟨"opt", some "NULL", ""⟩, .opt .str),
        (⟨"pets", none, ";"⟩, .slice .str)],
      writeRecordRow [(⟨"name", none, ""⟩, .str), (⟨"age", none, ""⟩, .int),
        (⟨"ok", none, ""⟩, .bool), (⟨"opt", some "NULL", ""⟩, .opt .str),
        (⟨"pets", none, ";"⟩, .slice .str)]
        [.vstr "John", .vint (-5), .vbool true, .vopt .str none,
          .vslice .str [.bstr "a", .bstr "b"]]], none⟩, none⟩ :
        TypedCSVReader).readHeader).2.readRecord
          [(⟨"name", none, ""⟩, .str), (⟨"age", none, ""⟩, .int),
            (⟨"ok", none, ""⟩, .bool), (⟨"opt", some "NULL", ""⟩, .opt .str),
            (⟨"pets", none, ";"⟩, .slice .str)]).1 =
        .ok [.vstr "John", .vint (-5), .vbool true, .vopt .str none,
          .vslice .str [.bstr "a", .bstr "b"]]) :=
  ⟨by decide, by decide,
    c1_roundtrip
      [(⟨"name", none, ""⟩, .str), (⟨"age", none, ""⟩, .int),
        (⟨"ok", none, ""⟩, .bool), (⟨"opt", some "NULL", ""⟩, .opt .str),
        (⟨"pets", none, ";"⟩, .slice .str)]
      [.vstr "John", .vint (-5), .vbool true, .vopt .str none,
        .vslice .str [.bstr "a", .bstr "b"]]
      (by decide) (by decide)⟩

/-- C1 counterexample: a whitespace-containing string field carries no lossy
format spec, yet encoding with WriteRecord and decoding the produced row
with ReadRecord under the same schema does not return the original record:
the cell "a b" rescans as the whitespace-delimited token "a". -/
theorem c1_cex :
    (((⟨⟨[writeHeaderRow [(⟨"name", none, ""⟩, .str)],
        writeRecordRow [(⟨"name", none, ""⟩, .str)] [.vstr "a b"]], none⟩, none⟩ :
        TypedCSVReader).readHeader).2.readRecord [(⟨"name", none, ""⟩, .str)]).1 =
      .ok [.vstr "a"] ∧
    (((⟨⟨[writeHeaderRow [(⟨"name", none, ""⟩, .str)],
        writeRecordRow [(⟨"name", none, ""⟩, .str)] [.vstr "a b"]], none⟩, none⟩ :
        TypedCSVReader).readHeader).2.readRecord [(⟨"name", none, ""⟩, .str)]).1 ≠
      .ok [.vstr "a b"] := by
  decide

end TypedCSV
